import Mathlib

/-!
# lsmtree: a shallow embedding of `lsmtree.go`

The Go program keeps a fixed-size in-memory block of records and a backing
file.  The embedding below follows the source function by function.

Modelling conventions:

* a Go slice is the list of its visible elements (indices `0 .. len-1`);
* a pointer is an `Option` (`none` is `nil`); dereferencing `nil` is the
  run-time panic `Panic.nilDeref`;
* an index or slice expression out of range is the panic
  `Panic.indexOutOfRange`;
* every function that can panic returns `Except Panic _`;
* the backing file is the list of the records written to it, one per line,
  in file order; `writeDataToFile` appends to them (the file is opened with
  `O_APPEND`); `getDiskData` opens the file write-only, so its scanner
  yields no line, whatever the file holds;
* the statement `go writeDataToFile(tree, allData)` is taken to have run to
  completion before the next operation starts: the file a function returns
  is the file once the writes started so far have run (no function of the
  program reads it back, so the tree never depends on it);
* failures of the file calls are a separate layer (`FileFaults`,
  `writeToDiskWith`, `PutWith`): the same code with an explicit outcome for
  the open call of `getDiskData` and for the write of `writeDataToFile`.
-/

namespace Lsmtree

abbrev keyType := Int
abbrev valueType := Int

/-- The Go struct `node`: one key/value record. -/
structure node where
  key : keyType
  val : valueType
deriving DecidableEq, Repr, Inhabited

/-- The Go struct `nodei`: a pointer to a record and an index. -/
structure nodei where
  node : Option node
  index : Nat
deriving DecidableEq, Repr

/-- The Go struct `Lsm`. -/
structure Lsm where
  blockSize : Nat
  k : Nat
  nodeSize : Nat
  nextEmtpy : Nat
  block : List node
  disk1 : String
  sorted : Bool
deriving DecidableEq, Repr

/-- Run-time panics of the Go program.  `outOfFuel` is an artefact of the
embedding of loops and recursion; it is shown never to be produced where it
matters. -/
inductive Panic where
  | nilDeref
  | indexOutOfRange
  | outOfFuel
deriving DecidableEq, Repr

/-- The three error values built with `errors.New`. -/
inductive GoError where
  | bufferNotFound
  | diskNotFound
  | notFound
deriving DecidableEq, Repr

/-- The records held by the file `tree.disk1`, in file order. -/
abbrev Disk := List node

/-- The zero value of `node`. -/
def zeroNode : node := { key := 0, val := 0 }

/-- The index expression `xs[i]` with its bounds check. -/
def index (xs : List node) (i : Nat) : Except Panic node :=
  match xs[i]? with
  | some x => .ok x
  | none => .error .indexOutOfRange

/-- The assignment `xs[i] = x` with its bounds check. -/
def store (xs : List node) (i : Nat) (x : node) : Except Panic (List node) :=
  if i < xs.length then .ok (xs.set i x) else .error .indexOutOfRange

/-- The assignment `p.key = k` through a pointer `p`. -/
def ptrSetKey (p : Option node) (k : keyType) : Except Panic (Option node) :=
  match p with
  | none => .error .nilDeref
  | some n => .ok (some { n with key := k })

/-- The assignment `p.val = v` through a pointer `p`. -/
def ptrSetVal (p : Option node) (v : valueType) : Except Panic (Option node) :=
  match p with
  | none => .error .nilDeref
  | some n => .ok (some { n with val := v })

/-- The field read `p.index` through a pointer `p` to a `nodei`. -/
def ptrIndex (p : Option nodei) : Except Panic Nat :=
  match p with
  | none => .error .nilDeref
  | some ni => .ok ni.index

/-- `InitNewLsm`: `make([]node, bufferSize)` is a block of zero records;
`unsafe.Sizeof(node)` is 16 for two 64-bit integers. -/
def InitNewLsm (bufferSize : Nat) (sorted : Bool) (fileName : String) : Lsm :=
  { blockSize := bufferSize
    k := 2
    nextEmtpy := 0
    nodeSize := 16
    block := List.replicate bufferSize zeroNode
    disk1 := fileName
    sorted := sorted }

/-- The body of the `if` in the search loops: `var node nodei` is the zero
value (its pointer field is `nil`), then `node.index = i`,
`node.node.key = k`, `node.node.val = src[i].val`, `return &node, nil`. -/
def foundNode (k : keyType) (src : List node) (i : Nat) :
    Except Panic (Option nodei × Option GoError) := do
  let nd : nodei := { node := none, index := 0 }
  let nd : nodei := { nd with index := i }
  let p ← ptrSetKey nd.node k
  let nd : nodei := { nd with node := p }
  let s ← index src i
  let p ← ptrSetVal nd.node s.val
  let nd : nodei := { nd with node := p }
  return (some nd, none)

/-- The loop of `searchBuffer`, with `cnt = tree.nextEmtpy - i` iterations
left. -/
def searchBufferLoop (k : keyType) (tree : Lsm) :
    Nat → Nat → Except Panic (Option nodei × Option GoError)
  | 0, _ => .ok (none, some .bufferNotFound)
  | cnt + 1, i => do
    let b ← index tree.block i
    if b.key = k then
      foundNode k tree.block i
    else
      searchBufferLoop k tree cnt (i + 1)

/-- `searchBuffer`. -/
def searchBuffer (k : keyType) (tree : Lsm) :
    Except Panic (Option nodei × Option GoError) :=
  searchBufferLoop k tree tree.nextEmtpy 0

/-- The access mode among the flags of an `os.OpenFile` call. -/
inductive AccessMode where
  | rdonly
  | wronly
  | rdwr
deriving DecidableEq, Repr

/-- The records a `bufio.Scanner` yields, one per line, from a file opened
with the given access mode.  A read on a write-only descriptor fails, so
`Scan()` is false at its first call and no line is yielded; the error of the
scanner is not looked at. -/
def scanRecords : AccessMode → Disk → List node
  | .wronly, _ => []
  | .rdonly, fs => fs
  | .rdwr, fs => fs

/-- `getDiskData`: the file is opened with
`os.O_APPEND|os.O_CREATE|os.O_WRONLY`, and `diskData` collects one record
per scanned line. -/
def getDiskData (_tree : Lsm) (fs : Disk) : List node :=
  scanRecords .wronly fs

/-- `writeDataToFile`: the file is opened with `O_APPEND`, the records are
written after the present content. -/
def writeDataToFile (_tree : Lsm) (allData : List node) (fs : Disk) : Disk :=
  fs ++ allData

/-- The loop of `searchDisk`, with `cnt = len(diskData) - i` iterations left.
The value is read from `tree.block[i]`, as in the source. -/
def searchDiskLoop (k : keyType) (tree : Lsm) (diskData : List node) :
    Nat → Nat → Except Panic (Option nodei × Option GoError)
  | 0, _ => .ok (none, some .diskNotFound)
  | cnt + 1, i => do
    let d ← index diskData i
    if d.key = k then
      foundNode k tree.block i
    else
      searchDiskLoop k tree diskData cnt (i + 1)

/-- `searchDisk`. -/
def searchDisk (k : keyType) (tree : Lsm) (fs : Disk) :
    Except Panic (Option nodei × Option GoError) :=
  let diskData := getDiskData tree fs
  searchDiskLoop k tree diskData diskData.length 0

/-- `Get`: the pair `(*node, error)` it returns. -/
def Get (key : keyType) (tree : Lsm) (fs : Disk) :
    Except Panic (Option node × Option GoError) := do
  let (ni, _) ← searchBuffer key tree
  match ni with
  | some n => return (n.node, none)
  | none =>
    let (diskNode, _) ← searchDisk key tree fs
    match diskNode with
    | some d => return (d.node, none)
    | none => return (none, some .notFound)

/-- The expression `append(xs[:i], xs[i+1:]...)` with the bounds check of
its slice expressions. -/
def removeAt (xs : List node) (i : Nat) : Except Panic (List node) :=
  if i + 1 ≤ xs.length then .ok (xs.take i ++ xs.drop (i + 1))
  else .error .indexOutOfRange

/-- `Delete`.  In the disk branch the source reads `ni.index`, where `ni`
is the `nil` result of `searchBuffer`. -/
def Delete (key : keyType) (tree : Lsm) (fs : Disk) : Except Panic (Lsm × Disk) := do
  let (ni, _) ← searchBuffer key tree
  match ni with
  | some n =>
    let tree := { tree with nextEmtpy := tree.nextEmtpy - 1 }
    let block ← removeAt tree.block n.index
    return ({ tree with block := block }, fs)
  | none =>
    let (dn, _) ← searchDisk key tree fs
    match dn with
    | some _ =>
      let diskData := getDiskData tree fs
      let idx ← ptrIndex ni
      let diskData ← removeAt diskData idx
      return (tree, writeDataToFile tree diskData fs)
    | none => return (tree, fs)

/-- An operand of `merge`: a slice with its own backing array, or a
sub-slice `whole[off : off+len]` that shares the array of `whole`. -/
inductive SliceRef where
  | own (data : List node)
  | sub (off len : Nat)
deriving Repr

/-- The length `len(*s)`. -/
def SliceRef.len : SliceRef → Nat
  | .own data => data.length
  | .sub _ len => len

/-- The read `(*s)[i]`, given the present content of `whole`. -/
def readAt (whole : List node) (s : SliceRef) (i : Nat) : Except Panic node :=
  match s with
  | .own data => index data i
  | .sub off len => if i < len then index whole (off + i) else .error .indexOutOfRange

/-- The first loop of `merge`: `for i < n && j < m`.  Both the comparison
and the copy read `(*right)[i]`, as in the source. -/
def mergeLoop1 (left right : SliceRef) :
    Nat → List node → Nat → Nat → Nat → Except Panic (List node × Nat × Nat × Nat)
  | 0, whole, i, j, k =>
    if i < left.len ∧ j < right.len then .error .outOfFuel else .ok (whole, i, j, k)
  | fuel + 1, whole, i, j, k =>
    if i < left.len ∧ j < right.len then do
      let l ← readAt whole left i
      let r ← readAt whole right i
      if l.key < r.key then
        let x ← readAt whole left i
        let whole ← store whole k x
        mergeLoop1 left right fuel whole (i + 1) j (k + 1)
      else
        let x ← readAt whole right i
        let whole ← store whole k x
        mergeLoop1 left right fuel whole i (j + 1) (k + 1)
    else .ok (whole, i, j, k)

/-- The second loop of `merge`: `for i < n`, with `cnt = n - i` iterations
left. -/
def mergeLoop2 (left : SliceRef) :
    Nat → List node → Nat → Nat → Except Panic (List node × Nat × Nat)
  | 0, whole, i, k => .ok (whole, i, k)
  | cnt + 1, whole, i, k => do
    let x ← readAt whole left i
    let whole ← store whole k x
    mergeLoop2 left cnt whole (i + 1) (k + 1)

/-- The third loop of `merge`: `for j < m`, with `cnt = m - j` iterations
left; it reads `(*right)[i]`, as in the source. -/
def mergeLoop3 (right : SliceRef) (i : Nat) :
    Nat → List node → Nat → Except Panic (List node)
  | 0, whole, _ => .ok whole
  | cnt + 1, whole, k => do
    let x ← readAt whole right i
    let whole ← store whole k x
    mergeLoop3 right i cnt whole (k + 1)

/-- `merge`: returns the final content of `whole`. -/
def merge (whole : List node) (left right : SliceRef) : Except Panic (List node) := do
  let n := left.len
  let m := right.len
  let (whole, i, j, k) ← mergeLoop1 left right (n + m) whole 0 0 0
  let (whole, i, k) ← mergeLoop2 left (n - i) whole i k
  mergeLoop3 right i (m - j) whole k

/-- `MergeSort` on the visible elements of `*block`.  The two recursive
calls work on the sub-slices `block[:mid]` and `block[mid:]`, which share
the array of `block`; afterwards `merge` writes into `block` while reading
from these two sub-slices. -/
def MergeSortAux : Nat → List node → Except Panic (List node)
  | 0, block => if block.length < 2 then .ok block else .error .outOfFuel
  | fuel + 1, block =>
    let n := block.length
    let mid := n / 2
    if n < 2 then .ok block
    else do
      let l ← MergeSortAux fuel (block.take mid)
      let r ← MergeSortAux fuel (block.drop mid)
      merge (l ++ r) (.sub 0 mid) (.sub mid (n - mid))

/-- `MergeSort`. -/
def MergeSort (block : List node) : Except Panic (List node) :=
  MergeSortAux block.length block

/-- `writeToDisk`. -/
def writeToDisk (tree : Lsm) (fs : Disk) : Except Panic (Lsm × Disk) := do
  let block ← if tree.sorted then MergeSort tree.block else pure tree.block
  let tree := { tree with block := block }
  let diskData := getDiskData tree fs
  let allData := List.replicate (diskData.length + tree.nextEmtpy) zeroNode
  let buffer := tree.block
  let allData ← merge allData (.own diskData) (.own buffer)
  let fs := writeDataToFile tree allData fs
  return ({ tree with nextEmtpy := 0 }, fs)

/-- `Put`. -/
def Put (key : keyType) (val : valueType) (tree : Lsm) (fs : Disk) :
    Except Panic (Lsm × Disk) := do
  let (tree, fs) ← if tree.nextEmtpy = tree.blockSize then writeToDisk tree fs
    else pure (tree, fs)
  let n : node := { key := key, val := val }
  let block ← store tree.block tree.nextEmtpy n
  return ({ tree with block := block, nextEmtpy := tree.nextEmtpy + 1 }, fs)

/-- A sequence of `Put` calls, issued in list order; a panic of one call
ends the run. -/
def PutAll : List (keyType × valueType) → Lsm → Disk → Except Panic (Lsm × Disk)
  | [], tree, fs => .ok (tree, fs)
  | (key, val) :: rest, tree, fs => do
    let (tree, fs) ← Put key val tree fs
    PutAll rest tree fs

/-- The records of `xs` are non-decreasing by key. -/
def SortedByKey : List node → Prop
  | [] => True
  | [_] => True
  | a :: b :: rest => a.key ≤ b.key ∧ SortedByKey (b :: rest)

/-- Whether the records are non-decreasing by key can be computed. -/
def SortedByKey.decide : (xs : List node) → Decidable (SortedByKey xs)
  | [] => isTrue trivial
  | [_] => isTrue trivial
  | a :: b :: rest =>
    match Int.decLe a.key b.key, SortedByKey.decide (b :: rest) with
    | isTrue h1, isTrue h2 => isTrue ⟨h1, h2⟩
    | isFalse h1, _ => isFalse (fun h => h1 h.1)
    | _, isFalse h2 => isFalse (fun h => h2 h.2)

instance (xs : List node) : Decidable (SortedByKey xs) := SortedByKey.decide xs

/-- The statements of `Put` that follow its `if`: the record is stored at
`tree.block[tree.nextEmtpy]` and `tree.nextEmtpy` is incremented. -/
def putRecord (key : keyType) (val : valueType) (tree : Lsm) (fs : Disk) :
    Except Panic (Lsm × Disk) := do
  let n : node := { key := key, val := val }
  let block ← store tree.block tree.nextEmtpy n
  return ({ tree with block := block, nextEmtpy := tree.nextEmtpy + 1 }, fs)

/-- One call of the public interface. -/
inductive Op where
  | put (key : keyType) (val : valueType)
  | get (key : keyType)
  | delete (key : keyType)
deriving Repr

/-- One call on a state (the tree and its file).  `Get` writes neither. -/
def step : Op → Lsm × Disk → Except Panic (Lsm × Disk)
  | .put key val, (tree, fs) => Put key val tree fs
  | .get key, (tree, fs) => do
    let _ ← Get key tree fs
    return (tree, fs)
  | .delete key, (tree, fs) => Delete key tree fs

/-- A finite sequence of calls, issued in list order; a panic ends the
program. -/
def runOps : List Op → Lsm × Disk → Except Panic (Lsm × Disk)
  | [], s => .ok s
  | op :: rest, s => do
    let s ← step op s
    runOps rest s

/-- How a call ends when it does not return: a run-time panic, or
`log.Fatal`, which ends the process. -/
inductive Abort where
  | panic (p : Panic)
  | fatal
deriving DecidableEq, Repr

/-- What the operating system does with the file calls of one flush:
whether `os.OpenFile` returns an error in `getDiskData`, and after how many
records a write error occurs in `writeDataToFile` (`none`: every record
reaches the file). -/
structure FileFaults where
  openReadFails : Bool
  written : Option Nat
deriving DecidableEq, Repr

/-- No call on the file fails. -/
def noFaults : FileFaults :=
  { openReadFails := false, written := none }

/-- A panic of the fault-free code is a panic here. -/
def liftPanic {α : Type} : Except Panic α → Except Abort α
  | .ok a => .ok a
  | .error p => .error (.panic p)

/-- `getDiskData` with the failure of its open call: an error of
`os.OpenFile` goes to `log.Fatal`; otherwise the scanner runs as in
`getDiskData`. -/
def getDiskDataWith (faults : FileFaults) (tree : Lsm) (fs : Disk) :
    Except Abort (List node) :=
  if faults.openReadFails then .error .fatal else .ok (getDiskData tree fs)

/-- `writeDataToFile` with a write error: the results of `WriteString` and
`Flush` are discarded, so the call returns; the file holds the records that
were written before the error.  An error of `os.OpenFile` in this call,
which runs in a goroutine, is not part of this layer. -/
def writeDataToFileWith (faults : FileFaults) (tree : Lsm) (allData : List node)
    (fs : Disk) : Disk :=
  match faults.written with
  | none => writeDataToFile tree allData fs
  | some n => writeDataToFile tree (allData.take n) fs

/-- `writeToDisk` with the failures of its file calls.  The file it returns
is the file once the write started by `go writeDataToFile` has run;
`writeToDisk` does not wait for it and does not look at its outcome. -/
def writeToDiskWith (faults : FileFaults) (tree : Lsm) (fs : Disk) :
    Except Abort (Lsm × Disk) := do
  let block ← liftPanic (if tree.sorted then MergeSort tree.block else pure tree.block)
  let tree := { tree with block := block }
  let diskData ← getDiskDataWith faults tree fs
  let allData := List.replicate (diskData.length + tree.nextEmtpy) zeroNode
  let buffer := tree.block
  let allData ← liftPanic (merge allData (.own diskData) (.own buffer))
  let fs := writeDataToFileWith faults tree allData fs
  return ({ tree with nextEmtpy := 0 }, fs)

/-- `Put` with the failures of the file calls of its flush.  `Put` has no
result: it returns normally or the program ends. -/
def PutWith (faults : FileFaults) (key : keyType) (val : valueType) (tree : Lsm)
    (fs : Disk) : Except Abort (Lsm × Disk) := do
  let s ← (if tree.nextEmtpy = tree.blockSize then writeToDiskWith faults tree fs
    else pure (tree, fs))
  let n : node := { key := key, val := val }
  let block ← liftPanic (store s.1.block s.1.nextEmtpy n)
  return ({ s.1 with block := block, nextEmtpy := s.1.nextEmtpy + 1 }, s.2)

/-! ## Search loops -/

/-- The found branch of both searches writes through the nil pointer of its
fresh `nodei`. -/
theorem foundNode_panics (k : keyType) (src : List node) (i : Nat) :
    foundNode k src i = .error .nilDeref := rfl

theorem index_of_getElem? {xs : List node} {i : Nat} {x : node} (h : xs[i]? = some x) :
    index xs i = .ok x := by
  simp [index, h]

theorem getElem?_of_lt {xs : List node} {i : Nat} (h : i < xs.length) :
    ∃ x, xs[i]? = some x := ⟨xs[i], List.getElem?_eq_getElem h⟩

theorem searchBufferLoop_miss (k : keyType) (tree : Lsm) :
    ∀ cnt i, i + cnt ≤ tree.block.length →
      (∀ j nd, i ≤ j → j < i + cnt → tree.block[j]? = some nd → nd.key ≠ k) →
      searchBufferLoop k tree cnt i = .ok (none, some .bufferNotFound)
  | 0, _, _, _ => rfl
  | cnt + 1, i, hlen, h => by
    obtain ⟨b, hb⟩ := getElem?_of_lt (show i < tree.block.length by omega)
    have hne : b.key ≠ k := h i b (le_refl i) (by omega) hb
    have ih := searchBufferLoop_miss k tree cnt (i + 1) (by omega)
      (fun j nd h1 h2 h3 => h j nd (by omega) (by omega) h3)
    simp [searchBufferLoop, index_of_getElem? hb, hne, ih, bind, Except.bind]

theorem searchBufferLoop_hit (k : keyType) (tree : Lsm) :
    ∀ cnt i, i + cnt ≤ tree.block.length →
      (∃ j nd, i ≤ j ∧ j < i + cnt ∧ tree.block[j]? = some nd ∧ nd.key = k) →
      searchBufferLoop k tree cnt i = .error .nilDeref
  | 0, _, _, h => by
    obtain ⟨j, _, h1, h2, _⟩ := h
    omega
  | cnt + 1, i, hlen, h => by
    obtain ⟨b, hb⟩ := getElem?_of_lt (show i < tree.block.length by omega)
    by_cases hk : b.key = k
    · simp [searchBufferLoop, index_of_getElem? hb, hk, foundNode_panics, bind, Except.bind]
    · obtain ⟨j, nd, h1, h2, h3, h4⟩ := h
      have hji : j ≠ i := by
        rintro rfl
        rw [hb] at h3
        exact hk (by cases h3; exact h4)
      have ih := searchBufferLoop_hit k tree cnt (i + 1) (by omega)
        ⟨j, nd, by omega, by omega, h3, h4⟩
      simp [searchBufferLoop, index_of_getElem? hb, hk, ih, bind, Except.bind]

theorem searchBufferLoop_ok (k : keyType) (tree : Lsm) :
    ∀ cnt i r, searchBufferLoop k tree cnt i = .ok r → r = (none, some .bufferNotFound)
  | 0, _, r, h => by
    simp [searchBufferLoop] at h
    exact h.symm
  | cnt + 1, i, r, h => by
    simp only [searchBufferLoop, bind, Except.bind] at h
    cases hidx : index tree.block i with
    | error e => rw [hidx] at h; cases h
    | ok b =>
      rw [hidx] at h
      by_cases hk : b.key = k
      · simp [hk, foundNode_panics] at h
      · simp only [hk, if_false] at h
        exact searchBufferLoop_ok k tree cnt (i + 1) r h

theorem searchDiskLoop_miss (k : keyType) (tree : Lsm) (diskData : List node) :
    ∀ cnt i, i + cnt ≤ diskData.length →
      (∀ j nd, i ≤ j → j < i + cnt → diskData[j]? = some nd → nd.key ≠ k) →
      searchDiskLoop k tree diskData cnt i = .ok (none, some .diskNotFound)
  | 0, _, _, _ => rfl
  | cnt + 1, i, hlen, h => by
    obtain ⟨d, hd⟩ := getElem?_of_lt (show i < diskData.length by omega)
    have hne : d.key ≠ k := h i d (le_refl i) (by omega) hd
    have ih := searchDiskLoop_miss k tree diskData cnt (i + 1) (by omega)
      (fun j nd h1 h2 h3 => h j nd (by omega) (by omega) h3)
    simp [searchDiskLoop, index_of_getElem? hd, hne, ih, bind, Except.bind]

/-! ## Lookups: misses and hits -/

/-- `getDiskData` returns no record, whatever the file holds. -/
theorem getDiskData_nil (tree : Lsm) (fs : Disk) : getDiskData tree fs = [] := rfl

/-- `searchDisk` finds no key, whatever the file holds. -/
theorem searchDisk_notFound (k : keyType) (tree : Lsm) (fs : Disk) :
    searchDisk k tree fs = .ok (none, some .diskNotFound) := rfl

/-- A key that no buffered record carries is not found by `searchBuffer`. -/
theorem searchBuffer_miss (k : keyType) (tree : Lsm)
    (hwf : tree.nextEmtpy ≤ tree.block.length)
    (hbuf : ∀ i nd, i < tree.nextEmtpy → tree.block[i]? = some nd → nd.key ≠ k) :
    searchBuffer k tree = .ok (none, some .bufferNotFound) :=
  searchBufferLoop_miss k tree tree.nextEmtpy 0 (by omega)
    (fun j nd _ h2 h3 => hbuf j nd (by omega) h3)

/-- A key that no segment record carries is not found by `searchDisk`. -/
theorem searchDisk_miss (k : keyType) (tree : Lsm) (fs : Disk)
    (hdisk : ∀ nd, nd ∈ getDiskData tree fs → nd.key ≠ k) :
    searchDisk k tree fs = .ok (none, some .diskNotFound) :=
  searchDiskLoop_miss k tree (getDiskData tree fs) (getDiskData tree fs).length 0 (by omega)
    (fun _ nd _ _ h3 => hdisk nd (List.getElem?_mem h3))

/-- A buffered key makes `searchBuffer` panic on the nil pointer of its
fresh `nodei`. -/
theorem searchBuffer_hit (k : keyType) (tree : Lsm)
    (hwf : tree.nextEmtpy ≤ tree.block.length)
    (hbuf : ∃ i nd, i < tree.nextEmtpy ∧ tree.block[i]? = some nd ∧ nd.key = k) :
    searchBuffer k tree = .error .nilDeref := by
  obtain ⟨i, nd, h1, h2, h3⟩ := hbuf
  exact searchBufferLoop_hit k tree tree.nextEmtpy 0 (by omega)
    ⟨i, nd, Nat.zero_le i, by omega, h2, h3⟩

/-- `Get` on a buffered key panics. -/
theorem Get_buffered_panics (k : keyType) (tree : Lsm) (fs : Disk)
    (hwf : tree.nextEmtpy ≤ tree.block.length)
    (hbuf : ∃ i nd, i < tree.nextEmtpy ∧ tree.block[i]? = some nd ∧ nd.key = k) :
    Get k tree fs = .error .nilDeref := by
  simp [Get, searchBuffer_hit k tree hwf hbuf, bind, Except.bind]

/-- `Delete` on a buffered key panics. -/
theorem Delete_buffered_panics (k : keyType) (tree : Lsm) (fs : Disk)
    (hwf : tree.nextEmtpy ≤ tree.block.length)
    (hbuf : ∃ i nd, i < tree.nextEmtpy ∧ tree.block[i]? = some nd ∧ nd.key = k) :
    Delete k tree fs = .error .nilDeref := by
  simp [Delete, searchBuffer_hit k tree hwf hbuf, bind, Except.bind]

/-- `Get` on a key that no buffered record carries reports not-found,
whatever the file holds. -/
theorem Get_unbuffered_notFound (k : keyType) (tree : Lsm) (fs : Disk)
    (hwf : tree.nextEmtpy ≤ tree.block.length)
    (hbuf : ∀ i nd, i < tree.nextEmtpy → tree.block[i]? = some nd → nd.key ≠ k) :
    Get k tree fs = .ok (none, some .notFound) := by
  simp [Get, searchBuffer_miss k tree hwf hbuf, searchDisk_notFound, bind, Except.bind,
    pure, Except.pure]

/-- `Delete` on a key that no buffered record carries returns and changes
nothing, whatever the file holds. -/
theorem Delete_unbuffered_unchanged (k : keyType) (tree : Lsm) (fs : Disk)
    (hwf : tree.nextEmtpy ≤ tree.block.length)
    (hbuf : ∀ i nd, i < tree.nextEmtpy → tree.block[i]? = some nd → nd.key ≠ k) :
    Delete k tree fs = .ok (tree, fs) := by
  simp [Delete, searchBuffer_miss k tree hwf hbuf, searchDisk_notFound, bind, Except.bind,
    pure, Except.pure]

/-! ## What the operations can return -/

theorem searchDiskLoop_ok (k : keyType) (tree : Lsm) (diskData : List node) :
    ∀ cnt i r, searchDiskLoop k tree diskData cnt i = .ok r → r = (none, some .diskNotFound)
  | 0, _, r, h => by
    simp [searchDiskLoop] at h
    exact h.symm
  | cnt + 1, i, r, h => by
    simp only [searchDiskLoop, bind, Except.bind] at h
    cases hidx : index diskData i with
    | error e => rw [hidx] at h; cases h
    | ok d =>
      rw [hidx] at h
      by_cases hk : d.key = k
      · simp [hk, foundNode_panics] at h
      · simp only [hk, if_false] at h
        exact searchDiskLoop_ok k tree diskData cnt (i + 1) r h

/-- Whenever `Get` returns at all, it returns no record and the not-found
error: the found branches of both searches panic. -/
theorem Get_ok_is_notFound (key : keyType) (tree : Lsm) (fs : Disk)
    (r : Option node × Option GoError) (h : Get key tree fs = .ok r) :
    r = (none, some .notFound) := by
  simp only [Get, bind, Except.bind] at h
  cases hb : searchBuffer key tree with
  | error e => rw [hb] at h; cases h
  | ok rb =>
    have hrb := searchBufferLoop_ok key tree _ _ rb hb
    subst hrb
    rw [hb] at h
    simp only [] at h
    cases hd : searchDisk key tree fs with
    | error e => rw [hd] at h; cases h
    | ok rd =>
      have hrd := searchDiskLoop_ok key tree _ _ _ rd hd
      subst hrd
      rw [hd] at h
      simp only [pure, Except.pure] at h
      cases h
      rfl

/-- Whenever `Delete` returns at all, it has changed nothing: the found
branches of both searches panic. -/
theorem Delete_ok_unchanged (key : keyType) (tree : Lsm) (fs : Disk)
    (r : Lsm × Disk) (h : Delete key tree fs = .ok r) : r = (tree, fs) := by
  simp only [Delete, bind, Except.bind] at h
  cases hb : searchBuffer key tree with
  | error e => rw [hb] at h; cases h
  | ok rb =>
    have hrb := searchBufferLoop_ok key tree _ _ rb hb
    subst hrb
    rw [hb] at h
    simp only [] at h
    cases hd : searchDisk key tree fs with
    | error e => rw [hd] at h; cases h
    | ok rd =>
      have hrd := searchDiskLoop_ok key tree _ _ _ rd hd
      subst hrd
      rw [hd] at h
      simp only [pure, Except.pure] at h
      cases h
      rfl

/-- The buffered slots of a fresh tree lie inside its block. -/
theorem InitNewLsm_slots_in_block (bufferSize : Nat) (sorted : Bool) (fileName : String) :
    (InitNewLsm bufferSize sorted fileName).nextEmtpy
      ≤ (InitNewLsm bufferSize sorted fileName).block.length :=
  Nat.zero_le _

/-- The last two statements of `Put`, on the tree and file left by the
flush test. -/
theorem Put_tail_slots_in_block (key : keyType) (val : valueType) (t : Lsm) (fs : Disk)
    (r : Lsm × Disk)
    (h : (store t.block t.nextEmtpy { key := key, val := val } >>= fun block =>
      (pure ({ t with block := block, nextEmtpy := t.nextEmtpy + 1 }, fs) :
        Except Panic (Lsm × Disk))) = .ok r) :
    r.1.nextEmtpy ≤ r.1.block.length := by
  unfold store at h
  by_cases hlt : t.nextEmtpy < t.block.length
  · simp only [hlt, if_true, bind, Except.bind, pure, Except.pure] at h
    cases h
    simp only [List.length_set]
    omega
  · simp only [hlt, if_false, bind, Except.bind] at h
    cases h

/-- After a `Put` that returns, the buffered slots lie inside the block. -/
theorem Put_slots_in_block (key : keyType) (val : valueType) (tree : Lsm) (fs : Disk)
    (r : Lsm × Disk) (h : Put key val tree fs = .ok r) :
    r.1.nextEmtpy ≤ r.1.block.length := by
  unfold Put at h
  by_cases hc : tree.nextEmtpy = tree.blockSize
  · rw [if_pos hc] at h
    cases hw : writeToDisk tree fs with
    | error e =>
      rw [hw] at h
      cases h
    | ok s =>
      rw [hw] at h
      exact Put_tail_slots_in_block key val s.1 s.2 r h
  · rw [if_neg hc] at h
    exact Put_tail_slots_in_block key val tree fs r h

/-! ## Claims on `Get` and `Delete` -/

/-- C1 (flush durability) evaluated on the code.  Capacity 1, empty file:
after `Put(1,10)`, `Put(2,20)` the second `Put` has flushed, the buffer holds
`(2,20)` and the file `(1,10)`; `Get(2)` ends in the nil-pointer panic
instead of returning 20, for either `sorted` setting, and `Get(1)` reports
not-found instead of returning 10, because `getDiskData` reads nothing back
from the file.  Capacity 2: after `Put(1,10)`, `Put(2,20)`, `Put(3,30)` the
flush has written `(1,10)` twice and `Get(2)` reports not-found. -/
theorem flush_durability_diverges :
    PutAll [(1, 10), (2, 20)] (InitNewLsm 1 false "f") []
      = .ok ({ blockSize := 1, k := 2, nodeSize := 16, nextEmtpy := 1,
               block := [⟨2, 20⟩], disk1 := "f", sorted := false }, [⟨1, 10⟩]) ∧
    (PutAll [(1, 10), (2, 20)] (InitNewLsm 1 false "f") [] >>= fun s => Get 2 s.1 s.2)
      = .error .nilDeref ∧
    (PutAll [(1, 10), (2, 20)] (InitNewLsm 1 false "f") [] >>= fun s => Get 1 s.1 s.2)
      = .ok (none, some .notFound) ∧
    (PutAll [(1, 10), (2, 20)] (InitNewLsm 1 true "f") [] >>= fun s => Get 2 s.1 s.2)
      = .error .nilDeref ∧
    PutAll [(1, 10), (2, 20), (3, 30)] (InitNewLsm 2 false "f") []
      = .ok ({ blockSize := 2, k := 2, nodeSize := 16, nextEmtpy := 1,
               block := [⟨3, 30⟩, ⟨2, 20⟩], disk1 := "f", sorted := false },
             [⟨1, 10⟩, ⟨1, 10⟩]) ∧
    (PutAll [(1, 10), (2, 20), (3, 30)] (InitNewLsm 2 false "f") []
        >>= fun s => Get 2 s.1 s.2)
      = .ok (none, some .notFound) :=
  ⟨rfl, rfl, rfl, rfl, rfl, rfl⟩

/-- C2 (buffer lookup) evaluated on the code.  With the single buffered
record `(7,70)`, `Get(7)` ends in the nil-pointer panic instead of returning
70; so it does with the two buffered records `(7,70)`, `(7,71)`. -/
theorem get_buffered_key_diverges :
    Put 7 70 (InitNewLsm 2 false "f") []
      = .ok ({ blockSize := 2, k := 2, nodeSize := 16, nextEmtpy := 1,
               block := [⟨7, 70⟩, ⟨0, 0⟩], disk1 := "f", sorted := false }, []) ∧
    (Put 7 70 (InitNewLsm 2 false "f") [] >>= fun s => Get 7 s.1 s.2)
      = .error .nilDeref ∧
    (PutAll [(7, 70), (7, 71)] (InitNewLsm 2 false "f") [] >>= fun s => Get 7 s.1 s.2)
      = .error .nilDeref :=
  ⟨rfl, rfl, rfl⟩

/-- C3 (last writer wins across tiers) evaluated on the code.  Capacity 1:
`Put(1,10)`, then `Put(1,20)` flushes `(1,10)` to the segment and buffers
`(1,20)`; `Get(1)` ends in the nil-pointer panic instead of returning 20. -/
theorem last_writer_wins_diverges :
    PutAll [(1, 10), (1, 20)] (InitNewLsm 1 false "f") []
      = .ok ({ blockSize := 1, k := 2, nodeSize := 16, nextEmtpy := 1,
               block := [⟨1, 20⟩], disk1 := "f", sorted := false }, [⟨1, 10⟩]) ∧
    (PutAll [(1, 10), (1, 20)] (InitNewLsm 1 false "f") [] >>= fun s => Get 1 s.1 s.2)
      = .error .nilDeref :=
  ⟨rfl, rfl⟩

/-- C5: a key that occurs neither among the buffered records (the slots
below `nextEmtpy`, which lie inside the block) nor in the segment makes
`Get` return no record and the not-found error.  In particular `Get(0)` on a
freshly initialised tree of any capacity is not-found when the segment has
no key 0, although every slot of the fresh block holds key 0. -/
theorem get_absent_key_not_found (k : keyType) (tree : Lsm) (fs : Disk)
    (hwf : tree.nextEmtpy ≤ tree.block.length)
    (hbuf : ∀ i nd, i < tree.nextEmtpy → tree.block[i]? = some nd → nd.key ≠ k)
    (hdisk : ∀ nd, nd ∈ getDiskData tree fs → nd.key ≠ k) :
    Get k tree fs = .ok (none, some .notFound) ∧
    (∀ (bufferSize : Nat) (sorted : Bool) (fileName : String) (fs0 : Disk),
      (∀ nd, nd ∈ fs0 → nd.key ≠ 0) →
      (∀ nd, nd ∈ (InitNewLsm bufferSize sorted fileName).block → nd.key = 0) ∧
      Get 0 (InitNewLsm bufferSize sorted fileName) fs0 = .ok (none, some .notFound)) := by
  have general : ∀ (k : keyType) (tree : Lsm) (fs : Disk),
      tree.nextEmtpy ≤ tree.block.length →
      (∀ i nd, i < tree.nextEmtpy → tree.block[i]? = some nd → nd.key ≠ k) →
      (∀ nd, nd ∈ getDiskData tree fs → nd.key ≠ k) →
      Get k tree fs = .ok (none, some .notFound) := by
    intro k tree fs hwf hbuf hdisk
    simp [Get, searchBuffer_miss k tree hwf hbuf, searchDisk_miss k tree fs hdisk, bind,
      Except.bind, pure, Except.pure]
  refine ⟨general k tree fs hwf hbuf hdisk, ?_⟩
  intro bufferSize sorted fileName fs0 _
  refine ⟨?_, general 0 _ fs0 (Nat.zero_le _) ?_
    (fun nd hmem => absurd hmem (List.not_mem_nil nd))⟩
  · intro nd hmem
    rw [InitNewLsm, List.mem_replicate] at hmem
    rw [hmem.2]
    rfl
  · intro i nd hi
    exact absurd hi (Nat.not_lt_zero i)

/-- A witness for C5: the tree reached by `Put(3,30)` on a fresh tree of
capacity 2, over the segment `[(5,50)]`, and the absent key 0, which the
unused slot 1 of the block carries. -/
theorem get_absent_key_not_found_witness :
    Get 0 { blockSize := 2, k := 2, nodeSize := 16, nextEmtpy := 1,
            block := [⟨3, 30⟩, ⟨0, 0⟩], disk1 := "f", sorted := false } [⟨5, 50⟩]
      = .ok (none, some .notFound) :=
  (get_absent_key_not_found 0
    { blockSize := 2, k := 2, nodeSize := 16, nextEmtpy := 1,
      block := [⟨3, 30⟩, ⟨0, 0⟩], disk1 := "f", sorted := false } [⟨5, 50⟩]
    (by decide)
    (by
      intro i nd hi hget
      have hi0 : i = 0 := by simpa using hi
      subst hi0
      simp at hget
      subst hget
      decide)
    (by
      intro nd hmem
      exact absurd hmem (List.not_mem_nil nd))).1

/-- C6 (delete visibility) evaluated on the code.  On a fresh tree of
capacity 1, and of capacity 2, `Put(1,10)` followed by `Delete(1)` with no
flush in between ends in the nil-pointer panic of `searchBuffer`: `Delete`
does not complete, so no `Get` follows it. -/
theorem delete_visibility_diverges :
    Put 1 10 (InitNewLsm 1 false "f") []
      = .ok ({ blockSize := 1, k := 2, nodeSize := 16, nextEmtpy := 1,
               block := [⟨1, 10⟩], disk1 := "f", sorted := false }, []) ∧
    (Put 1 10 (InitNewLsm 1 false "f") [] >>= fun s => Delete 1 s.1 s.2)
      = .error .nilDeref ∧
    (Put 1 10 (InitNewLsm 2 true "f") [] >>= fun s => Delete 1 s.1 s.2)
      = .error .nilDeref :=
  ⟨rfl, rfl, rfl⟩

/-- C7 (delete from the segment) evaluated on the code.  Capacity 1:
after `Put(7,70)`, `Put(8,80)` the flush has written `(7,70)` to the file and
the buffer holds `(8,80)` only.  `Delete(7)` returns without a panic and
leaves the file `[(7,70)]` as it was, instead of removing the record:
`getDiskData` reads nothing back, so the key is not found.  The same on a
fresh tree over the file `[(7,70),(8,80)]`, which should become `[(8,80)]`. -/
theorem delete_segment_key_diverges :
    PutAll [(7, 70), (8, 80)] (InitNewLsm 1 false "f") []
      = .ok ({ blockSize := 1, k := 2, nodeSize := 16, nextEmtpy := 1,
               block := [⟨8, 80⟩], disk1 := "f", sorted := false }, [⟨7, 70⟩]) ∧
    (PutAll [(7, 70), (8, 80)] (InitNewLsm 1 false "f") [] >>= fun s => Delete 7 s.1 s.2)
      = .ok ({ blockSize := 1, k := 2, nodeSize := 16, nextEmtpy := 1,
               block := [⟨8, 80⟩], disk1 := "f", sorted := false }, [⟨7, 70⟩]) ∧
    ([⟨7, 70⟩] : List node) ≠ [] ∧
    Delete 7 (InitNewLsm 1 false "f") [⟨7, 70⟩, ⟨8, 80⟩]
      = .ok (InitNewLsm 1 false "f", [⟨7, 70⟩, ⟨8, 80⟩]) ∧
    ([⟨7, 70⟩, ⟨8, 80⟩] : List node) ≠ [⟨8, 80⟩] :=
  ⟨rfl, rfl, by decide, rfl, by decide⟩

/-- C8: for a key absent from the buffered records (the slots below
`nextEmtpy`, which lie inside the block) and from the segment, `Delete`
completes without a panic and returns the tree (block, nextEmtpy and all
other fields) and the segment exactly as they were. -/
theorem delete_absent_key_unchanged (k : keyType) (tree : Lsm) (fs : Disk)
    (hwf : tree.nextEmtpy ≤ tree.block.length)
    (hbuf : ∀ i nd, i < tree.nextEmtpy → tree.block[i]? = some nd → nd.key ≠ k)
    (hdisk : ∀ nd, nd ∈ getDiskData tree fs → nd.key ≠ k) :
    Delete k tree fs = .ok (tree, fs) := by
  simp [Delete, searchBuffer_miss k tree hwf hbuf, searchDisk_miss k tree fs hdisk, bind,
    Except.bind, pure, Except.pure]

/-- A witness for C8: the tree reached by `Put(3,30)` on a fresh tree of
capacity 2, over the segment `[(5,50)]`, and the absent key 4. -/
theorem delete_absent_key_unchanged_witness :
    Delete 4 { blockSize := 2, k := 2, nodeSize := 16, nextEmtpy := 1,
               block := [⟨3, 30⟩, ⟨0, 0⟩], disk1 := "f", sorted := false } [⟨5, 50⟩]
      = .ok ({ blockSize := 2, k := 2, nodeSize := 16, nextEmtpy := 1,
               block := [⟨3, 30⟩, ⟨0, 0⟩], disk1 := "f", sorted := false }, [⟨5, 50⟩]) :=
  delete_absent_key_unchanged 4
    { blockSize := 2, k := 2, nodeSize := 16, nextEmtpy := 1,
      block := [⟨3, 30⟩, ⟨0, 0⟩], disk1 := "f", sorted := false } [⟨5, 50⟩]
    (by decide)
    (by
      intro i nd hi hget
      have hi0 : i = 0 := by simpa using hi
      subst hi0
      simp at hget
      subst hget
      decide)
    (by
      intro nd hmem
      exact absurd hmem (List.not_mem_nil nd))

/-! ## The flush onto an empty segment -/

/-- The third loop of `merge` on a right operand with its own array writes
the one record `(*right)[i]` into every slot it visits. -/
theorem mergeLoop3_own (data : List node) (i : Nat) (x : node) (hx : data[i]? = some x) :
    ∀ cnt whole k, k + cnt ≤ whole.length →
      mergeLoop3 (.own data) i cnt whole k
        = .ok (whole.take k ++ List.replicate cnt x ++ whole.drop (k + cnt))
  | 0, whole, k, _ => by
    simp [mergeLoop3]
  | cnt + 1, whole, k, hlen => by
    have hk : k < whole.length := by omega
    have ih := mergeLoop3_own data i x hx cnt (whole.set k x) (k + 1)
      (by simp only [List.length_set]; omega)
    simp only [mergeLoop3, readAt, index_of_getElem? hx, store, hk, if_true, bind,
      Except.bind, ih]
    congr 1
    rw [List.set_eq_take_append_cons_drop, if_pos hk]
    have e1 : (List.take k whole ++ x :: List.drop (k + 1) whole).take (k + 1)
        = List.take k whole ++ [x] := by
      rw [List.take_append_eq_append_take]
      simp [List.length_take, Nat.min_eq_left (Nat.le_of_lt hk)]
    have e2 : (List.take k whole ++ x :: List.drop (k + 1) whole).drop (k + 1 + cnt)
        = List.drop (k + (cnt + 1)) whole := by
      rw [List.drop_append_eq_append_drop]
      simp [List.length_take, Nat.min_eq_left (Nat.le_of_lt hk)]
      have : k + 1 + cnt - k = cnt + 1 := by omega
      rw [List.drop_eq_nil_of_le (by simp [List.length_take]; omega)]
      simp [this, List.drop_drop]
      congr 1
      omega
    rw [e1, e2, List.replicate_succ]
    simp

/-- An empty left operand: `merge` fills `whole` with copies of the first
record of `right`. -/
theorem merge_empty_left (b : node) (rest : List node) :
    merge (List.replicate (rest.length + 1) zeroNode) (.own []) (.own (b :: rest))
      = .ok (List.replicate (rest.length + 1) b) := by
  have h3 := mergeLoop3_own (b :: rest) 0 b (by simp) (rest.length + 1)
    (List.replicate (rest.length + 1) zeroNode) 0 (by simp)
  have h2 : mergeLoop2 (.own []) 0 (List.replicate (rest.length + 1) zeroNode) 0 0
      = .ok (List.replicate (rest.length + 1) zeroNode, 0, 0) := rfl
  simp only [merge, SliceRef.len, List.length_nil, List.length_cons, Nat.zero_add,
    mergeLoop1, bind, Except.bind, Nat.sub_zero]
  simp [h2, h3]

/-- With `sorted = false` and a full non-empty buffer, `writeToDisk` returns
and appends `nextEmtpy` copies of the first buffered record to the file. -/
theorem writeToDisk_unsorted (tree : Lsm) (fs : Disk) (b : node) (rest : List node)
    (hsorted : tree.sorted = false) (hblock : tree.block = b :: rest)
    (hfull : tree.nextEmtpy = tree.block.length) :
    writeToDisk tree fs
      = .ok ({ tree with nextEmtpy := 0 }, fs ++ List.replicate tree.nextEmtpy b) := by
  have hm := merge_empty_left b rest
  simp only [writeToDisk, hsorted, hfull, hblock, getDiskData, scanRecords,
    List.length_nil, List.length_cons, Nat.zero_add, writeDataToFile, bind, Except.bind,
    pure, Except.pure]
  simp [hm]

/-- With `sorted = false`, a full non-empty buffer and an empty segment,
`writeToDisk` writes `nextEmtpy` copies of the first buffered record. -/
theorem writeToDisk_empty_segment (tree : Lsm) (b : node) (rest : List node)
    (hsorted : tree.sorted = false) (hblock : tree.block = b :: rest)
    (hfull : tree.nextEmtpy = tree.block.length) :
    writeToDisk tree []
      = .ok ({ tree with nextEmtpy := 0 }, List.replicate tree.nextEmtpy b) := by
  rw [writeToDisk_unsorted tree [] b rest hsorted hblock hfull, List.nil_append]

/-! ## Claims on the flush -/

/-- C9 (flush writes the union) evaluated on the code.  The tree reached by
`Put(1,10)`, `Put(2,20)` on a fresh tree of capacity 2 has a full buffer over
an empty segment; `writeToDisk` leaves the segment `[(1,10),(1,10)]`: key 2
of the buffer is missing and the record `(1,10)` is written twice.  With
`sorted = true` and the buffer `[(2,20),(1,10)]` the segment is the same. -/
theorem flush_union_diverges :
    PutAll [(1, 10), (2, 20)] (InitNewLsm 2 false "f") []
      = .ok ({ blockSize := 2, k := 2, nodeSize := 16, nextEmtpy := 2,
               block := [⟨1, 10⟩, ⟨2, 20⟩], disk1 := "f", sorted := false }, []) ∧
    writeToDisk { blockSize := 2, k := 2, nodeSize := 16, nextEmtpy := 2,
                  block := [⟨1, 10⟩, ⟨2, 20⟩], disk1 := "f", sorted := false } []
      = .ok ({ blockSize := 2, k := 2, nodeSize := 16, nextEmtpy := 0,
               block := [⟨1, 10⟩, ⟨2, 20⟩], disk1 := "f", sorted := false },
             [⟨1, 10⟩, ⟨1, 10⟩]) ∧
    writeToDisk { blockSize := 2, k := 2, nodeSize := 16, nextEmtpy := 2,
                  block := [⟨2, 20⟩, ⟨1, 10⟩], disk1 := "f", sorted := true } []
      = .ok ({ blockSize := 2, k := 2, nodeSize := 16, nextEmtpy := 0,
               block := [⟨1, 10⟩, ⟨1, 10⟩], disk1 := "f", sorted := true },
             [⟨1, 10⟩, ⟨1, 10⟩]) :=
  ⟨rfl, rfl, rfl⟩

/-- C10 (sorted flush) evaluated on the code.  With `sorted = true`, an
empty file and the full buffer `[(1,10),(2,20)]` (reached by `Put(1,10)`,
`Put(2,20)` on a fresh tree of capacity 2), `MergeSort` and with it
`writeToDisk` and the next `Put` end in an index-out-of-range panic: no
segment is produced.  With capacity 1, the sorted file `[(5,50)]` and the
buffer `[(1,10)]` the flush completes and leaves the file `[(5,50),(1,10)]`,
which is not non-decreasing by key. -/
theorem sorted_flush_diverges :
    PutAll [(1, 10), (2, 20)] (InitNewLsm 2 true "f") []
      = .ok ({ blockSize := 2, k := 2, nodeSize := 16, nextEmtpy := 2,
               block := [⟨1, 10⟩, ⟨2, 20⟩], disk1 := "f", sorted := true }, []) ∧
    MergeSort [⟨1, 10⟩, ⟨2, 20⟩] = .error .indexOutOfRange ∧
    writeToDisk { blockSize := 2, k := 2, nodeSize := 16, nextEmtpy := 2,
                  block := [⟨1, 10⟩, ⟨2, 20⟩], disk1 := "f", sorted := true } []
      = .error .indexOutOfRange ∧
    PutAll [(1, 10), (2, 20), (3, 30)] (InitNewLsm 2 true "f") []
      = .error .indexOutOfRange ∧
    SortedByKey [⟨5, 50⟩] ∧
    writeToDisk { blockSize := 1, k := 2, nodeSize := 16, nextEmtpy := 1,
                  block := [⟨1, 10⟩], disk1 := "f", sorted := true } [⟨5, 50⟩]
      = .ok ({ blockSize := 1, k := 2, nodeSize := 16, nextEmtpy := 0,
               block := [⟨1, 10⟩], disk1 := "f", sorted := true },
             [⟨5, 50⟩, ⟨1, 10⟩]) ∧
    ¬ SortedByKey [⟨5, 50⟩, ⟨1, 10⟩] :=
  ⟨rfl, rfl, rfl, rfl, by decide, rfl, by decide⟩

/-! ## Lengths are kept by the flush -/

theorem store_length {xs ys : List node} {i : Nat} {x : node}
    (h : store xs i x = .ok ys) : ys.length = xs.length := by
  unfold store at h
  split at h
  · cases h
    simp
  · cases h

theorem mergeLoop1_length (left right : SliceRef) :
    ∀ fuel whole i j k r, mergeLoop1 left right fuel whole i j k = .ok r →
      r.1.length = whole.length
  | 0, whole, i, j, k, r, h => by
    simp only [mergeLoop1] at h
    split at h
    · cases h
    · cases h
      rfl
  | fuel + 1, whole, i, j, k, r, h => by
    simp only [mergeLoop1, bind, Except.bind] at h
    split at h
    · cases hl : readAt whole left i with
      | error e => rw [hl] at h; cases h
      | ok l =>
        cases hr : readAt whole right i with
        | error e => rw [hl, hr] at h; cases h
        | ok rr =>
          rw [hl, hr] at h
          simp only [] at h
          split at h
          · cases hs : store whole k l with
            | error e => rw [hs] at h; cases h
            | ok w =>
              rw [hs] at h
              rw [mergeLoop1_length left right fuel w _ _ _ r h, store_length hs]
          · cases hs : store whole k rr with
            | error e => rw [hs] at h; cases h
            | ok w =>
              rw [hs] at h
              rw [mergeLoop1_length left right fuel w _ _ _ r h, store_length hs]
    · cases h
      rfl

theorem mergeLoop2_length (left : SliceRef) :
    ∀ cnt whole i k r, mergeLoop2 left cnt whole i k = .ok r → r.1.length = whole.length
  | 0, whole, i, k, r, h => by
    simp only [mergeLoop2] at h
    cases h
    rfl
  | cnt + 1, whole, i, k, r, h => by
    simp only [mergeLoop2, bind, Except.bind] at h
    cases hl : readAt whole left i with
    | error e => rw [hl] at h; cases h
    | ok l =>
      rw [hl] at h
      simp only [] at h
      cases hs : store whole k l with
      | error e => rw [hs] at h; cases h
      | ok w =>
        rw [hs] at h
        rw [mergeLoop2_length left cnt w _ _ r h, store_length hs]

theorem mergeLoop3_length (right : SliceRef) (i : Nat) :
    ∀ cnt whole k r, mergeLoop3 right i cnt whole k = .ok r → r.length = whole.length
  | 0, whole, k, r, h => by
    simp only [mergeLoop3] at h
    cases h
    rfl
  | cnt + 1, whole, k, r, h => by
    simp only [mergeLoop3, bind, Except.bind] at h
    cases hl : readAt whole right i with
    | error e => rw [hl] at h; cases h
    | ok l =>
      rw [hl] at h
      simp only [] at h
      cases hs : store whole k l with
      | error e => rw [hs] at h; cases h
      | ok w =>
        rw [hs] at h
        rw [mergeLoop3_length right i cnt w _ r h, store_length hs]

/-- `merge` keeps the length of `whole`. -/
theorem merge_length (whole : List node) (left right : SliceRef) (r : List node)
    (h : merge whole left right = .ok r) : r.length = whole.length := by
  simp only [merge, bind, Except.bind] at h
  cases h1 : mergeLoop1 left right (left.len + right.len) whole 0 0 0 with
  | error e => rw [h1] at h; cases h
  | ok s1 =>
    rw [h1] at h
    simp only [] at h
    cases h2 : mergeLoop2 left (left.len - s1.2.1) s1.1 s1.2.1 s1.2.2.2 with
    | error e => rw [h2] at h; cases h
    | ok s2 =>
      rw [h2] at h
      simp only [] at h
      rw [mergeLoop3_length _ _ _ _ _ r h, mergeLoop2_length _ _ _ _ _ s2 h2,
        mergeLoop1_length _ _ _ _ _ _ _ s1 h1]

/-- `MergeSort` keeps the length of the block. -/
theorem MergeSortAux_length :
    ∀ fuel block r, MergeSortAux fuel block = .ok r → r.length = block.length
  | 0, block, r, h => by
    simp only [MergeSortAux] at h
    split at h
    · cases h
      rfl
    · cases h
  | fuel + 1, block, r, h => by
    simp only [MergeSortAux, bind, Except.bind] at h
    split at h
    · cases h
      rfl
    · cases hl : MergeSortAux fuel (List.take (block.length / 2) block) with
      | error e => rw [hl] at h; cases h
      | ok l =>
        cases hr : MergeSortAux fuel (List.drop (block.length / 2) block) with
        | error e => rw [hl, hr] at h; cases h
        | ok rr =>
          rw [hl, hr] at h
          simp only [] at h
          rw [merge_length _ _ _ r h, List.length_append,
            MergeSortAux_length fuel _ l hl, MergeSortAux_length fuel _ rr hr,
            List.length_take, List.length_drop]
          omega

/-- A sequence of two steps returns only if both return. -/
theorem bind_eq_ok {ε α β : Type} {x : Except ε α} {f : α → Except ε β} {r : β}
    (h : (x >>= f) = .ok r) : ∃ a, x = .ok a ∧ f a = .ok r := by
  cases x with
  | error e => cases h
  | ok a => exact ⟨a, rfl, h⟩

/-- A flush that returns has reset `nextEmtpy` to 0 and kept `blockSize`
and the length of the block. -/
theorem writeToDisk_ok_fields (tree : Lsm) (fs : Disk) (r : Lsm × Disk)
    (h : writeToDisk tree fs = .ok r) :
    r.1.nextEmtpy = 0 ∧ r.1.blockSize = tree.blockSize ∧
      r.1.block.length = tree.block.length := by
  unfold writeToDisk at h
  have key : ∀ b : List node, b.length = tree.block.length →
      ((merge (List.replicate ((getDiskData { tree with block := b } fs).length
          + tree.nextEmtpy) zeroNode) (.own (getDiskData { tree with block := b } fs))
          (.own b) >>= fun allData =>
        (pure ({ tree with block := b, nextEmtpy := 0 },
          writeDataToFile { tree with block := b } allData fs) :
          Except Panic (Lsm × Disk))) = .ok r) →
      r.1.nextEmtpy = 0 ∧ r.1.blockSize = tree.blockSize ∧
        r.1.block.length = tree.block.length := by
    intro b hlen hk
    obtain ⟨a, _, hk⟩ := bind_eq_ok hk
    cases hk
    exact ⟨rfl, rfl, hlen⟩
  dsimp only at h
  split at h
  · obtain ⟨b, hb, h⟩ := bind_eq_ok h
    exact key b (MergeSortAux_length _ _ b hb) h
  · exact key tree.block rfl h

/-! ## `Put` and the states the program reaches -/

/-- `Put` is the flush test followed by `putRecord`. -/
theorem Put_eq (key : keyType) (val : valueType) (tree : Lsm) (fs : Disk) :
    Put key val tree fs
      = ((if tree.nextEmtpy = tree.blockSize then writeToDisk tree fs else pure (tree, fs))
          >>= fun s => putRecord key val s.1 s.2) := by
  unfold Put
  dsimp only
  split <;> rfl

/-- `putRecord` on a slot inside the block. -/
theorem putRecord_in_range (key : keyType) (val : valueType) (tree : Lsm) (fs : Disk)
    (h : tree.nextEmtpy < tree.block.length) :
    putRecord key val tree fs
      = .ok ({ tree with block := tree.block.set tree.nextEmtpy ⟨key, val⟩,
                         nextEmtpy := tree.nextEmtpy + 1 }, fs) := by
  simp [putRecord, store, h, bind, Except.bind, pure, Except.pure]

/-- A `Put` that returns keeps `blockSize`, the bound on `nextEmtpy` and the
length of the block. -/
theorem Put_keeps_shape (B : Nat) (hB : 0 < B) (key : keyType) (val : valueType)
    (tree : Lsm) (fs : Disk) (r : Lsm × Disk)
    (hsize : tree.blockSize = B) (hnext : tree.nextEmtpy ≤ B) (hlen : tree.block.length = B)
    (h : Put key val tree fs = .ok r) :
    r.1.blockSize = B ∧ r.1.nextEmtpy ≤ B ∧ r.1.block.length = B := by
  rw [Put_eq] at h
  obtain ⟨s, hs, h⟩ := bind_eq_ok h
  have hs' : s.1.blockSize = B ∧ s.1.nextEmtpy < B ∧ s.1.block.length = B := by
    by_cases hfull : tree.nextEmtpy = tree.blockSize
    · rw [if_pos hfull] at hs
      obtain ⟨h1, h2, h3⟩ := writeToDisk_ok_fields tree fs s hs
      exact ⟨by rw [h2, hsize], by omega, by rw [h3, hlen]⟩
    · rw [if_neg hfull] at hs
      cases hs
      refine ⟨hsize, ?_, hlen⟩
      show tree.nextEmtpy < B
      omega
  obtain ⟨h1, h2, h3⟩ := hs'
  rw [putRecord_in_range key val s.1 s.2 (by omega)] at h
  cases h
  refine ⟨h1, ?_, ?_⟩
  · show s.1.nextEmtpy + 1 ≤ B
    omega
  · show (s.1.block.set s.1.nextEmtpy ⟨key, val⟩).length = B
    rw [List.length_set, h3]

/-- One call that returns keeps `blockSize`, the bound on `nextEmtpy` and the
length of the block. -/
theorem step_keeps_shape (B : Nat) (hB : 0 < B) (op : Op) (s r : Lsm × Disk)
    (hsize : s.1.blockSize = B) (hnext : s.1.nextEmtpy ≤ B) (hlen : s.1.block.length = B)
    (h : step op s = .ok r) :
    r.1.blockSize = B ∧ r.1.nextEmtpy ≤ B ∧ r.1.block.length = B := by
  obtain ⟨tree, fs⟩ := s
  cases op with
  | put key val => exact Put_keeps_shape B hB key val tree fs r hsize hnext hlen h
  | get key =>
    simp only [step] at h
    obtain ⟨_, _, h⟩ := bind_eq_ok h
    cases h
    exact ⟨hsize, hnext, hlen⟩
  | delete key =>
    have := Delete_ok_unchanged key tree fs r h
    subst this
    exact ⟨hsize, hnext, hlen⟩

/-- Every sequence of calls that returns keeps `blockSize`, the bound on
`nextEmtpy` and the length of the block. -/
theorem runOps_keeps_shape (B : Nat) (hB : 0 < B) :
    ∀ (ops : List Op) (s r : Lsm × Disk),
      s.1.blockSize = B → s.1.nextEmtpy ≤ B → s.1.block.length = B →
      runOps ops s = .ok r →
      r.1.blockSize = B ∧ r.1.nextEmtpy ≤ B ∧ r.1.block.length = B
  | [], s, r, hsize, hnext, hlen, h => by
    simp only [runOps] at h
    cases h
    exact ⟨hsize, hnext, hlen⟩
  | op :: rest, s, r, hsize, hnext, hlen, h => by
    simp only [runOps] at h
    obtain ⟨s1, hs1, h⟩ := bind_eq_ok h
    obtain ⟨h1, h2, h3⟩ := step_keeps_shape B hB op s s1 hsize hnext hlen hs1
    exact runOps_keeps_shape B hB rest s1 r h1 h2 h3 h

/-- The states reached from a fresh tree have a block of exactly `blockSize`
slots. -/
theorem reachable_block_length (bufferSize : Nat) (sorted : Bool) (fileName : String)
    (fs0 : Disk) (ops : List Op) (r : Lsm × Disk) (hpos : 0 < bufferSize)
    (hrun : runOps ops (InitNewLsm bufferSize sorted fileName, fs0) = .ok r) :
    r.1.block.length = r.1.blockSize ∧ r.1.blockSize = bufferSize := by
  obtain ⟨h1, _, h3⟩ := runOps_keeps_shape bufferSize hpos ops _ r rfl (Nat.zero_le _)
    (by simp [InitNewLsm]) hrun
  exact ⟨by rw [h3, h1], h1⟩

/-- A flush that returns has appended `nextEmtpy` records to the file. -/
theorem writeToDisk_ok_file (tree : Lsm) (fs : Disk) (r : Lsm × Disk)
    (h : writeToDisk tree fs = .ok r) :
    ∃ allData, r.2 = fs ++ allData ∧ allData.length = tree.nextEmtpy := by
  unfold writeToDisk at h
  have key : ∀ b : List node,
      ((merge (List.replicate ((getDiskData { tree with block := b } fs).length
          + tree.nextEmtpy) zeroNode) (.own (getDiskData { tree with block := b } fs))
          (.own b) >>= fun allData =>
        (pure ({ tree with block := b, nextEmtpy := 0 },
          writeDataToFile { tree with block := b } allData fs) :
          Except Panic (Lsm × Disk))) = .ok r) →
      ∃ allData, r.2 = fs ++ allData ∧ allData.length = tree.nextEmtpy := by
    intro b hk
    obtain ⟨a, ha, hk⟩ := bind_eq_ok hk
    cases hk
    exact ⟨a, rfl, by rw [merge_length _ _ _ a ha]; simp [getDiskData, scanRecords]⟩
  dsimp only at h
  split at h
  · obtain ⟨b, _, h⟩ := bind_eq_ok h
    exact key b h
  · exact key tree.block h

/-- A flush returns whenever the sort of a full, non-empty block returns:
it leaves the sorted block, `nextEmtpy = 0`, and has appended `nextEmtpy`
copies of the first record of the block to the file. -/
theorem writeToDisk_returns (tree : Lsm) (fs : Disk) (b0 : node) (rest : List node)
    (hb : (if tree.sorted = true then MergeSort tree.block else pure tree.block)
      = .ok (b0 :: rest))
    (hfull : tree.nextEmtpy = rest.length + 1) :
    writeToDisk tree fs
      = .ok ({ tree with block := b0 :: rest, nextEmtpy := 0 },
             fs ++ List.replicate tree.nextEmtpy b0) := by
  have hm := merge_empty_left b0 rest
  have key : ∀ b : List node, b = b0 :: rest →
      (merge (List.replicate ((getDiskData { tree with block := b } fs).length
          + tree.nextEmtpy) zeroNode) (.own (getDiskData { tree with block := b } fs))
          (.own b) >>= fun allData =>
        (pure ({ tree with block := b, nextEmtpy := 0 },
          writeDataToFile { tree with block := b } allData fs) :
          Except Panic (Lsm × Disk)))
      = .ok ({ tree with block := b0 :: rest, nextEmtpy := 0 },
             fs ++ List.replicate tree.nextEmtpy b0) := by
    intro b hbeq
    subst hbeq
    simp only [getDiskData, scanRecords, List.length_nil, Nat.zero_add, hfull, hm,
      writeDataToFile, bind, Except.bind, pure, Except.pure]
  unfold writeToDisk
  dsimp only
  split
  · rename_i hs
    rw [if_pos hs] at hb
    rw [hb]
    exact key _ rfl
  · rename_i hs
    rw [if_neg hs] at hb
    have hbe : tree.block = b0 :: rest := by
      simpa [pure, Except.pure] using hb
    exact key _ hbe

/-- `putRecord` returns only when the slot is inside the block, and then
stores the record there and increments `nextEmtpy`. -/
theorem putRecord_ok (key : keyType) (val : valueType) (tree : Lsm) (fs : Disk)
    (r : Lsm × Disk) (h : putRecord key val tree fs = .ok r) :
    tree.nextEmtpy < tree.block.length ∧
    r = ({ tree with block := tree.block.set tree.nextEmtpy ⟨key, val⟩,
                     nextEmtpy := tree.nextEmtpy + 1 }, fs) := by
  by_cases hlt : tree.nextEmtpy < tree.block.length
  · rw [putRecord_in_range key val tree fs hlt] at h
    cases h
    exact ⟨hlt, rfl⟩
  · simp [putRecord, store, hlt, bind, Except.bind] at h

/-! ## Claims on `Put` -/

/-- C11: `Put` flushes exactly when the buffer already holds `blockSize`
records.  With `nextEmtpy = blockSize` the call is `writeToDisk` followed by
the insertion, and a call that returns leaves `nextEmtpy = 1` with the new
record in slot 0: the buffer was emptied first.  With
`nextEmtpy ≠ blockSize` the call is the insertion alone: a call that returns
leaves `nextEmtpy + 1`, the block changed in slot `nextEmtpy` only (it is
not sorted), and the file as it was (no write is started). -/
theorem put_flushes_iff_full (key : keyType) (val : valueType) (tree : Lsm) (fs : Disk) :
    (tree.nextEmtpy = tree.blockSize →
      Put key val tree fs
        = (writeToDisk tree fs >>= fun s => putRecord key val s.1 s.2) ∧
      ∀ r, Put key val tree fs = .ok r →
        r.1.nextEmtpy = 1 ∧ r.1.block[0]? = some ⟨key, val⟩) ∧
    (tree.nextEmtpy ≠ tree.blockSize →
      Put key val tree fs = putRecord key val tree fs ∧
      ∀ r, Put key val tree fs = .ok r →
        r.2 = fs ∧ r.1.nextEmtpy = tree.nextEmtpy + 1 ∧
        r.1.block = tree.block.set tree.nextEmtpy ⟨key, val⟩) := by
  constructor
  · intro hfull
    have heq : Put key val tree fs
        = (writeToDisk tree fs >>= fun s => putRecord key val s.1 s.2) := by
      rw [Put_eq, if_pos hfull]
    refine ⟨heq, ?_⟩
    intro r hr
    rw [heq] at hr
    obtain ⟨s, hs, hr⟩ := bind_eq_ok hr
    have h0 : s.1.nextEmtpy = 0 := (writeToDisk_ok_fields tree fs s hs).1
    obtain ⟨hin, hreq⟩ := putRecord_ok key val s.1 s.2 r hr
    subst hreq
    rw [h0] at hin
    refine ⟨?_, ?_⟩
    · show s.1.nextEmtpy + 1 = 1
      rw [h0]
    · show (s.1.block.set s.1.nextEmtpy ⟨key, val⟩)[0]? = some ⟨key, val⟩
      rw [h0]
      simp [hin]
  · intro hnot
    have heq : Put key val tree fs = putRecord key val tree fs := by
      rw [Put_eq, if_neg hnot]
      rfl
    refine ⟨heq, ?_⟩
    intro r hr
    rw [heq] at hr
    obtain ⟨_, hreq⟩ := putRecord_ok key val tree fs r hr
    subst hreq
    exact ⟨rfl, rfl, rfl⟩

/-- A witness for C11: on the full tree reached by `Put(1,10)` with capacity
1, over the file `[(5,50)]`, `Put(2,20)` flushes and leaves `nextEmtpy = 1`
with `(2,20)` in slot 0; on the tree reached by `Put(1,10)` with capacity 2
it does not flush and leaves `nextEmtpy = 2` and the file as it was. -/
theorem put_flushes_iff_full_witness :
    (Except.map Prod.fst
        (Put 2 20 { blockSize := 1, k := 2, nodeSize := 16, nextEmtpy := 1,
                    block := [⟨1, 10⟩], disk1 := "f", sorted := false } [⟨5, 50⟩])
      = .ok { blockSize := 1, k := 2, nodeSize := 16, nextEmtpy := 1,
              block := [⟨2, 20⟩], disk1 := "f", sorted := false }) ∧
    (1 = 1 ∧ ([⟨2, 20⟩] : List node)[0]? = some ⟨2, 20⟩) ∧
    (Put 2 20 { blockSize := 2, k := 2, nodeSize := 16, nextEmtpy := 1,
                block := [⟨1, 10⟩, ⟨0, 0⟩], disk1 := "f", sorted := false } [⟨5, 50⟩]
      = .ok ({ blockSize := 2, k := 2, nodeSize := 16, nextEmtpy := 2,
               block := [⟨1, 10⟩, ⟨2, 20⟩], disk1 := "f", sorted := false },
             [⟨5, 50⟩])) ∧
    (([⟨5, 50⟩] : List node) = [⟨5, 50⟩] ∧ 2 = 1 + 1 ∧
      ([⟨1, 10⟩, ⟨2, 20⟩] : List node) = [(⟨1, 10⟩ : node), ⟨0, 0⟩].set 1 ⟨2, 20⟩) :=
  ⟨rfl,
   ((put_flushes_iff_full 2 20
      { blockSize := 1, k := 2, nodeSize := 16, nextEmtpy := 1,
        block := [⟨1, 10⟩], disk1 := "f", sorted := false } [⟨5, 50⟩]).1 (by decide)).2
      ({ blockSize := 1, k := 2, nodeSize := 16, nextEmtpy := 1,
         block := [⟨2, 20⟩], disk1 := "f", sorted := false }, [⟨5, 50⟩, ⟨1, 10⟩]) rfl,
   rfl,
   ((put_flushes_iff_full 2 20
      { blockSize := 2, k := 2, nodeSize := 16, nextEmtpy := 1,
        block := [⟨1, 10⟩, ⟨0, 0⟩], disk1 := "f", sorted := false } [⟨5, 50⟩]).2 (by decide)).2
      ({ blockSize := 2, k := 2, nodeSize := 16, nextEmtpy := 2,
         block := [⟨1, 10⟩, ⟨2, 20⟩], disk1 := "f", sorted := false }, [⟨5, 50⟩]) rfl⟩

/-- C12: in every state reached from `InitNewLsm bufferSize sorted fileName`
with `bufferSize > 0` by a finite sequence of `Put`, `Get` and `Delete`
calls, `0 ≤ nextEmtpy ≤ blockSize`. -/
theorem capacity_invariant (bufferSize : Nat) (sorted : Bool) (fileName : String)
    (fs0 : Disk) (ops : List Op) (tree : Lsm) (fs : Disk) (hpos : 0 < bufferSize)
    (hrun : runOps ops (InitNewLsm bufferSize sorted fileName, fs0) = .ok (tree, fs)) :
    0 ≤ tree.nextEmtpy ∧ tree.nextEmtpy ≤ tree.blockSize := by
  obtain ⟨h1, h2, _⟩ := runOps_keeps_shape bufferSize hpos ops _ (tree, fs) rfl
    (Nat.zero_le _) (by simp [InitNewLsm]) hrun
  exact ⟨Nat.zero_le _, by rw [h1]; exact h2⟩

/-- A witness for C12: capacity 1 and the calls `Put(1,10)`, `Put(2,20)`,
`Put(3,30)`, `Get(9)`, `Delete(9)`; the second and the third `Put` flush,
the third over a file that is no longer empty. -/
theorem capacity_invariant_witness :
    runOps [.put 1 10, .put 2 20, .put 3 30, .get 9, .delete 9]
        (InitNewLsm 1 false "f", [])
      = .ok ({ blockSize := 1, k := 2, nodeSize := 16, nextEmtpy := 1,
               block := [⟨3, 30⟩], disk1 := "f", sorted := false },
             [⟨1, 10⟩, ⟨2, 20⟩]) ∧
    (0 ≤ 1 ∧ 1 ≤ 1) :=
  ⟨rfl, capacity_invariant 1 false "f" []
    [.put 1 10, .put 2 20, .put 3 30, .get 9, .delete 9]
    { blockSize := 1, k := 2, nodeSize := 16, nextEmtpy := 1,
      block := [⟨3, 30⟩], disk1 := "f", sorted := false }
    [⟨1, 10⟩, ⟨2, 20⟩] (by decide) rfl⟩

/-- C13: on a tree with `nextEmtpy < blockSize` and `len(block) = blockSize`,
`Put(k, v)` returns, stores `(k, v)` at slot `nextEmtpy`, increases
`nextEmtpy` by one, leaves every other slot of the block (the previously
buffered ones among them) and every other field as they were, and returns
the file unchanged, whatever the file holds. -/
theorem put_not_full (key : keyType) (val : valueType) (tree : Lsm) (fs : Disk)
    (hlt : tree.nextEmtpy < tree.blockSize) (hlen : tree.block.length = tree.blockSize) :
    Put key val tree fs
      = .ok ({ tree with block := tree.block.set tree.nextEmtpy ⟨key, val⟩,
                         nextEmtpy := tree.nextEmtpy + 1 }, fs) ∧
    (tree.block.set tree.nextEmtpy ⟨key, val⟩)[tree.nextEmtpy]? = some ⟨key, val⟩ ∧
    (tree.block.set tree.nextEmtpy ⟨key, val⟩).length = tree.block.length ∧
    (∀ i, i ≠ tree.nextEmtpy →
      (tree.block.set tree.nextEmtpy ⟨key, val⟩)[i]? = tree.block[i]?) ∧
    (∀ i, i < tree.nextEmtpy →
      (tree.block.set tree.nextEmtpy ⟨key, val⟩)[i]? = tree.block[i]?) := by
  have hne : tree.nextEmtpy ≠ tree.blockSize := by omega
  have hin : tree.nextEmtpy < tree.block.length := by omega
  refine ⟨?_, ?_, ?_, ?_, ?_⟩
  · rw [Put_eq, if_neg hne]
    exact putRecord_in_range key val tree fs hin
  · simp [hin]
  · simp
  · intro i hi
    simp [List.getElem?_set, Ne.symm hi]
  · intro i hi
    have : tree.nextEmtpy ≠ i := by omega
    simp [List.getElem?_set, this]

/-- A witness for C13: the tree reached by `Put(3,30)` on a fresh tree of
capacity 2, over the file `[(5,50)]`, and `Put(4,40)`. -/
theorem put_not_full_witness :
    Put 4 40 { blockSize := 2, k := 2, nodeSize := 16, nextEmtpy := 1,
               block := [⟨3, 30⟩, ⟨0, 0⟩], disk1 := "f", sorted := false } [⟨5, 50⟩]
      = .ok ({ blockSize := 2, k := 2, nodeSize := 16, nextEmtpy := 2,
               block := [⟨3, 30⟩, ⟨4, 40⟩], disk1 := "f", sorted := false }, [⟨5, 50⟩]) :=
  (put_not_full 4 40
    { blockSize := 2, k := 2, nodeSize := 16, nextEmtpy := 1,
      block := [⟨3, 30⟩, ⟨0, 0⟩], disk1 := "f", sorted := false } [⟨5, 50⟩]
    (by decide) rfl).1

/-! ## Claims on `merge` and `MergeSort` -/

/-- Two one-record operands in key order: `merge` copies the left record,
then its last loop reads `(*right)[1]`, outside `right`. -/
theorem merge_singletons_panics (a b z1 z2 : node) (h : a.key < b.key) :
    merge [z1, z2] (.own [a]) (.own [b]) = .error .indexOutOfRange := by
  simp [merge, mergeLoop1, mergeLoop2, mergeLoop3, readAt, index, store, SliceRef.len, h,
    bind, Except.bind]
  rfl

/-- C14 (merge correctness) evaluated on the code.  For the sorted
operands `left = []`, `right = [(1,10),(2,20)]` and a separate `whole` of
two slots, `merge` leaves `[(1,10),(1,10)]`, which is not a rearrangement
of the operands; for `left = [(1,10),(5,50)]`, `right = [(2,20),(3,30)]` it
leaves `[(1,10),(3,30),(3,30),(5,50)]`; for `left = [(1,10),(2,20)]`,
`right = [(3,30)]` it does not complete (index out of range). -/
theorem merge_correctness_diverges :
    SortedByKey [] ∧ SortedByKey [⟨1, 10⟩, ⟨2, 20⟩] ∧
    merge (List.replicate 2 zeroNode) (.own []) (.own [⟨1, 10⟩, ⟨2, 20⟩])
      = .ok [⟨1, 10⟩, ⟨1, 10⟩] ∧
    ¬ List.Perm [⟨1, 10⟩, ⟨1, 10⟩] (([] : List node) ++ [⟨1, 10⟩, ⟨2, 20⟩]) ∧
    SortedByKey [⟨1, 10⟩, ⟨5, 50⟩] ∧ SortedByKey [⟨2, 20⟩, ⟨3, 30⟩] ∧
    merge (List.replicate 4 zeroNode) (.own [⟨1, 10⟩, ⟨5, 50⟩]) (.own [⟨2, 20⟩, ⟨3, 30⟩])
      = .ok [⟨1, 10⟩, ⟨3, 30⟩, ⟨3, 30⟩, ⟨5, 50⟩] ∧
    ¬ List.Perm [⟨1, 10⟩, ⟨3, 30⟩, ⟨3, 30⟩, ⟨5, 50⟩]
      ([⟨1, 10⟩, ⟨5, 50⟩] ++ [(⟨2, 20⟩ : node), ⟨3, 30⟩]) ∧
    SortedByKey [⟨3, 30⟩] ∧
    merge (List.replicate 3 zeroNode) (.own [⟨1, 10⟩, ⟨2, 20⟩]) (.own [⟨3, 30⟩])
      = .error .indexOutOfRange := by
  refine ⟨by decide, by decide, rfl, ?_, by decide, by decide, rfl, ?_, by decide, rfl⟩
  · intro h
    have := h.count_eq ⟨2, 20⟩
    revert this
    decide
  · intro h
    have := h.count_eq ⟨2, 20⟩
    revert this
    decide

/-- C15 (sort correctness) evaluated on the code.  `MergeSort` on the
block `[(1,10),(2,20)]` does not complete (index out of range in `merge`); on
`[(2,20),(1,10)]` it leaves `[(1,10),(1,10)]` and on
`[(3,30),(2,20),(1,10)]` it leaves three copies of `(1,10)`, neither a
rearrangement of its input. -/
theorem sort_correctness_diverges :
    MergeSort [⟨1, 10⟩, ⟨2, 20⟩] = .error .indexOutOfRange ∧
    MergeSort [⟨2, 20⟩, ⟨1, 10⟩] = .ok [⟨1, 10⟩, ⟨1, 10⟩] ∧
    ¬ List.Perm [(⟨1, 10⟩ : node), ⟨1, 10⟩] [⟨2, 20⟩, ⟨1, 10⟩] ∧
    MergeSort [⟨3, 30⟩, ⟨2, 20⟩, ⟨1, 10⟩] = .ok [⟨1, 10⟩, ⟨1, 10⟩, ⟨1, 10⟩] ∧
    ¬ List.Perm [(⟨1, 10⟩ : node), ⟨1, 10⟩, ⟨1, 10⟩] [⟨3, 30⟩, ⟨2, 20⟩, ⟨1, 10⟩] := by
  refine ⟨rfl, rfl, ?_, rfl, ?_⟩
  · intro h
    have := h.count_eq ⟨2, 20⟩
    revert this
    decide
  · intro h
    have := h.count_eq ⟨2, 20⟩
    revert this
    decide

/-- C16 (sort idempotence) evaluated on the code.  For `S = [(2,20),(3,30)]`
and for `S = [(4,40),(4,41),(7,70)]` the first `MergeSort` already ends in an
index-out-of-range panic, so `MergeSort` applied to its result never runs:
the composition does not complete. -/
theorem sort_idempotence_diverges :
    MergeSort [⟨2, 20⟩, ⟨3, 30⟩] = .error .indexOutOfRange ∧
    (MergeSort [⟨2, 20⟩, ⟨3, 30⟩] >>= MergeSort) = .error .indexOutOfRange ∧
    MergeSort [⟨4, 40⟩, ⟨4, 41⟩, ⟨7, 70⟩] = .error .indexOutOfRange ∧
    (MergeSort [⟨4, 40⟩, ⟨4, 41⟩, ⟨7, 70⟩] >>= MergeSort) = .error .indexOutOfRange :=
  ⟨rfl, rfl, rfl, rfl⟩

/-- C17 (the concrete scenario) evaluated on the code.  Capacity 2,
`sorted = true`, empty file: after `Put(5,50)`, `Put(3,30)`, `Put(1,10)` the
third `Put` has flushed and `nextEmtpy = 1`, `block[0] = (1,10)`, but the
segment is `[(3,30),(3,30)]`, not `[(3,30),(5,50)]`: `MergeSort` has turned
the block `[(5,50),(3,30)]` into `[(3,30),(3,30)]`. -/
theorem concrete_scenario_diverges :
    PutAll [(5, 50), (3, 30)] (InitNewLsm 2 true "f") []
      = .ok ({ blockSize := 2, k := 2, nodeSize := 16, nextEmtpy := 2,
               block := [⟨5, 50⟩, ⟨3, 30⟩], disk1 := "f", sorted := true }, []) ∧
    MergeSort [⟨5, 50⟩, ⟨3, 30⟩] = .ok [⟨3, 30⟩, ⟨3, 30⟩] ∧
    PutAll [(5, 50), (3, 30), (1, 10)] (InitNewLsm 2 true "f") []
      = .ok ({ blockSize := 2, k := 2, nodeSize := 16, nextEmtpy := 1,
               block := [⟨1, 10⟩, ⟨3, 30⟩], disk1 := "f", sorted := true },
             [⟨3, 30⟩, ⟨3, 30⟩]) ∧
    ([⟨3, 30⟩, ⟨3, 30⟩] : List node) ≠ [⟨3, 30⟩, ⟨5, 50⟩] :=
  ⟨rfl, rfl, rfl, by decide⟩

/-- C19 (index safety of `merge`) evaluated on the code.  With
`left = [(1,10)]`, `right = [(2,20)]` and a separate `whole` of two slots,
`merge` copies `left[0]`, leaves its first loop with `i = 1`, and its last
loop reads `(*right)[1]`, outside `right`: an index-out-of-range panic.  With
the unsorted `left = [(1,10),(0,5),(9,90)]`, `right = [(2,20),(3,30)]` the
first loop itself reads `(*right)[2]`. -/
theorem merge_index_safety_diverges :
    readAt [⟨1, 10⟩, ⟨0, 0⟩] (.own [⟨2, 20⟩]) 1 = .error .indexOutOfRange ∧
    merge (List.replicate 2 zeroNode) (.own [⟨1, 10⟩]) (.own [⟨2, 20⟩])
      = .error .indexOutOfRange ∧
    merge (List.replicate 5 zeroNode) (.own [⟨1, 10⟩, ⟨0, 5⟩, ⟨9, 90⟩])
        (.own [⟨2, 20⟩, ⟨3, 30⟩])
      = .error .indexOutOfRange :=
  ⟨rfl, rfl, rfl⟩

/-! ## Claim on the length of the block -/

/-- C20: in every state reached from `InitNewLsm bufferSize sorted fileName`
with `bufferSize > 0` by a finite sequence of `Put`, `Get` and `Delete`
calls (a `Delete` before a `Put` included), the block has exactly
`blockSize` slots; at the write `tree.block[tree.nextEmtpy] = n` of a
following `Put`, after its flush test, `nextEmtpy` is inside the block; and
the `Put` returns unless the `MergeSort` of a full block, with
`sorted = true`, panics. -/
theorem block_keeps_blockSize_slots (bufferSize : Nat) (sorted : Bool) (fileName : String)
    (fs0 : Disk) (ops : List Op) (tree : Lsm) (fs : Disk) (hpos : 0 < bufferSize)
    (hrun : runOps ops (InitNewLsm bufferSize sorted fileName, fs0) = .ok (tree, fs)) :
    tree.block.length = tree.blockSize ∧
    (∀ s, (if tree.nextEmtpy = tree.blockSize then writeToDisk tree fs else pure (tree, fs))
        = .ok s →
      s.1.nextEmtpy < s.1.block.length ∧ s.1.block.length = s.1.blockSize) ∧
    (∀ key val,
      (tree.nextEmtpy ≠ tree.blockSize ∨ tree.sorted = false ∨
        ∃ b, MergeSort tree.block = .ok b) →
      ∃ r, Put key val tree fs = .ok r) := by
  obtain ⟨hsize, hnext, hlen⟩ := runOps_keeps_shape bufferSize hpos ops _ (tree, fs) rfl
    (Nat.zero_le _) (by simp [InitNewLsm]) hrun
  have hsize : tree.blockSize = bufferSize := hsize
  have hnext : tree.nextEmtpy ≤ bufferSize := hnext
  have hlen : tree.block.length = bufferSize := hlen
  refine ⟨by rw [hlen, hsize], ?_, ?_⟩
  · intro s hs
    by_cases hfull : tree.nextEmtpy = tree.blockSize
    · rw [if_pos hfull] at hs
      obtain ⟨h1, h2, h3⟩ := writeToDisk_ok_fields tree fs s hs
      exact ⟨by omega, by rw [h3, h2, hlen, hsize]⟩
    · rw [if_neg hfull] at hs
      cases hs
      refine ⟨?_, ?_⟩
      · show tree.nextEmtpy < tree.block.length
        omega
      · show tree.block.length = tree.blockSize
        rw [hlen, hsize]
  · intro key val hcase
    rw [Put_eq]
    by_cases hfull : tree.nextEmtpy = tree.blockSize
    · rw [if_pos hfull]
      have hsorted : ∃ b, (if tree.sorted = true then MergeSort tree.block
          else pure tree.block) = .ok b ∧ b.length = tree.block.length := by
        by_cases hs : tree.sorted = true
        · rcases hcase with h | h | ⟨b, hb⟩
          · exact absurd hfull h
          · rw [hs] at h
            cases h
          · exact ⟨b, by rw [if_pos hs, hb], MergeSortAux_length _ _ b hb⟩
        · exact ⟨tree.block, by rw [if_neg hs]; rfl, rfl⟩
      obtain ⟨b, hb, hblen⟩ := hsorted
      cases b with
      | nil =>
        simp only [List.length_nil] at hblen
        omega
      | cons b0 rest =>
        have hw := writeToDisk_returns tree fs b0 rest hb
          (by simp only [List.length_cons] at hblen; omega)
        rw [hw]
        exact ⟨_, putRecord_in_range key val _ _ (by simp)⟩
    · rw [if_neg hfull]
      exact ⟨_, putRecord_in_range key val tree fs (by omega)⟩

/-- A witness for C20: capacity 1 and the calls `Put(1,10)`, `Delete(9)`,
`Put(2,20)`; the state they reach has a block of one slot, and `Put(3,30)`
returns on it with `(3,30)` in slot 0. -/
theorem block_keeps_blockSize_slots_witness :
    runOps [.put 1 10, .delete 9, .put 2 20] (InitNewLsm 1 false "f", [])
      = .ok ({ blockSize := 1, k := 2, nodeSize := 16, nextEmtpy := 1,
               block := [⟨2, 20⟩], disk1 := "f", sorted := false }, [⟨1, 10⟩]) ∧
    ([⟨2, 20⟩] : List node).length = 1 ∧
    Except.map Prod.fst
        (Put 3 30 { blockSize := 1, k := 2, nodeSize := 16, nextEmtpy := 1,
                    block := [⟨2, 20⟩], disk1 := "f", sorted := false } [⟨1, 10⟩])
      = .ok { blockSize := 1, k := 2, nodeSize := 16, nextEmtpy := 1,
              block := [⟨3, 30⟩], disk1 := "f", sorted := false } :=
  ⟨rfl,
   (block_keeps_blockSize_slots 1 false "f" [] [.put 1 10, .delete 9, .put 2 20]
      { blockSize := 1, k := 2, nodeSize := 16, nextEmtpy := 1,
        block := [⟨2, 20⟩], disk1 := "f", sorted := false } [⟨1, 10⟩] (by decide) rfl).1,
   rfl⟩

/-! ## The flush when a file call fails -/

/-- Without failures the flush is `writeToDisk`. -/
theorem writeToDiskWith_noFaults (tree : Lsm) (fs : Disk) :
    writeToDiskWith noFaults tree fs = liftPanic (writeToDisk tree fs) := by
  have tail : ∀ b : List node,
      (getDiskDataWith noFaults { tree with block := b } fs >>= fun diskData =>
        liftPanic (merge (List.replicate (diskData.length + tree.nextEmtpy) zeroNode)
          (.own diskData) (.own b)) >>= fun allData =>
        (pure ({ tree with block := b, nextEmtpy := 0 },
          writeDataToFileWith noFaults { tree with block := b } allData fs) :
          Except Abort (Lsm × Disk)))
      = liftPanic
        (merge (List.replicate ((getDiskData { tree with block := b } fs).length
            + tree.nextEmtpy) zeroNode) (.own (getDiskData { tree with block := b } fs))
            (.own b) >>= fun allData =>
        (pure ({ tree with block := b, nextEmtpy := 0 },
          writeDataToFile { tree with block := b } allData fs) :
          Except Panic (Lsm × Disk))) := by
    intro b
    cases hm : merge (List.replicate ((getDiskData { tree with block := b } fs).length
        + tree.nextEmtpy) zeroNode) (.own (getDiskData { tree with block := b } fs))
        (.own b) with
    | error e =>
      simp [getDiskDataWith, noFaults, hm, liftPanic, bind, Except.bind]
    | ok a =>
      simp [getDiskDataWith, writeDataToFileWith, noFaults, hm, liftPanic, bind,
        Except.bind, pure, Except.pure]
  unfold writeToDiskWith writeToDisk
  dsimp only
  by_cases hs : tree.sorted = true
  · rw [if_pos hs, if_pos hs]
    cases hm : MergeSort tree.block with
    | error e => rfl
    | ok b => exact tail b
  · rw [if_neg hs, if_neg hs]
    exact tail tree.block

/-- Without failures `PutWith` is `Put`. -/
theorem PutWith_noFaults (key : keyType) (val : valueType) (tree : Lsm) (fs : Disk) :
    PutWith noFaults key val tree fs = liftPanic (Put key val tree fs) := by
  rw [Put_eq]
  unfold PutWith putRecord
  by_cases hfull : tree.nextEmtpy = tree.blockSize
  · rw [if_pos hfull, if_pos hfull, writeToDiskWith_noFaults]
    cases writeToDisk tree fs with
    | error e => rfl
    | ok s =>
      simp only [liftPanic, bind, Except.bind]
      cases store s.1.block s.1.nextEmtpy ⟨key, val⟩ <;> rfl
  · rw [if_neg hfull, if_neg hfull]
    simp only [bind, Except.bind, pure, Except.pure]
    cases store tree.block tree.nextEmtpy ⟨key, val⟩ <;> rfl

/-- When the sort of a full, non-empty block returns and the file can be
opened, the flush returns, whatever the write does. -/
theorem writeToDiskWith_returns (faults : FileFaults) (tree : Lsm) (fs : Disk) (b0 : node)
    (rest : List node)
    (hb : (if tree.sorted = true then MergeSort tree.block else pure tree.block)
      = .ok (b0 :: rest))
    (hfull : tree.nextEmtpy = rest.length + 1) (hr : faults.openReadFails = false) :
    writeToDiskWith faults tree fs
      = .ok ({ tree with block := b0 :: rest, nextEmtpy := 0 },
             writeDataToFileWith faults { tree with block := b0 :: rest }
               (List.replicate tree.nextEmtpy b0) fs) := by
  have hm := merge_empty_left b0 rest
  unfold writeToDiskWith
  rw [hb]
  simp only [liftPanic, getDiskDataWith, hr, getDiskData, scanRecords, Bool.false_eq_true,
    if_false, List.length_nil, Nat.zero_add, hfull, hm, bind, Except.bind, pure,
    Except.pure]

/-- When the sort of the block returns and `os.OpenFile` fails in
`getDiskData`, the flush ends in `log.Fatal`. -/
theorem writeToDiskWith_fatal (faults : FileFaults) (tree : Lsm) (fs : Disk)
    (b : List node)
    (hb : (if tree.sorted = true then MergeSort tree.block else pure tree.block) = .ok b)
    (hr : faults.openReadFails = true) :
    writeToDiskWith faults tree fs = .error .fatal := by
  unfold writeToDiskWith
  rw [hb]
  simp only [liftPanic, getDiskDataWith, hr, if_true, bind, Except.bind]

/-! ## Claim on the flush when a file call fails -/

/-- C18 as stated fails on the code.  Capacity 1, full buffer `[(1,10)]`,
empty file, and a write error before the first record reaches the file: the
flush returns with `nextEmtpy = 0`, and `Put(2,20)` returns normally with
`(2,20)` in slot 0; the record `(1,10)` is in neither tier.  Over the file
`[(5,50)]` the scanner of `getDiskData` reads nothing (its read error is not
looked at), and the flush and `Put` return normally as well. -/
theorem flush_atomicity_counterexample :
    writeToDiskWith { openReadFails := false, written := some 0 }
        { blockSize := 1, k := 2, nodeSize := 16, nextEmtpy := 1,
          block := [⟨1, 10⟩], disk1 := "f", sorted := false } []
      = .ok ({ blockSize := 1, k := 2, nodeSize := 16, nextEmtpy := 0,
               block := [⟨1, 10⟩], disk1 := "f", sorted := false }, []) ∧
    PutWith { openReadFails := false, written := some 0 } 2 20
        { blockSize := 1, k := 2, nodeSize := 16, nextEmtpy := 1,
          block := [⟨1, 10⟩], disk1 := "f", sorted := false } []
      = .ok ({ blockSize := 1, k := 2, nodeSize := 16, nextEmtpy := 1,
               block := [⟨2, 20⟩], disk1 := "f", sorted := false }, []) ∧
    getDiskData { blockSize := 1, k := 2, nodeSize := 16, nextEmtpy := 1,
                  block := [⟨1, 10⟩], disk1 := "f", sorted := false } [⟨5, 50⟩] = [] ∧
    PutWith { openReadFails := false, written := none } 2 20
        { blockSize := 1, k := 2, nodeSize := 16, nextEmtpy := 1,
          block := [⟨1, 10⟩], disk1 := "f", sorted := false } [⟨5, 50⟩]
      = .ok ({ blockSize := 1, k := 2, nodeSize := 16, nextEmtpy := 1,
               block := [⟨2, 20⟩], disk1 := "f", sorted := false },
             [⟨5, 50⟩, ⟨1, 10⟩]) :=
  ⟨rfl, rfl, rfl, rfl⟩

/-- C18 as amended.  On a tree with a full buffer of `blockSize > 0` slots,
whenever the sort of the block returns (`b` is the block it leaves): if the
file can be opened by `getDiskData`, the flush returns with `nextEmtpy = 0`
and the buffered records still in the block, and `Put` returns normally with
its record stored in slot 0 and `nextEmtpy = 1`, whether the write failed or
not and however many records it wrote; if `os.OpenFile` fails in
`getDiskData`, `Put` does not return: `log.Fatal` ends the process. -/
theorem flush_discards_write_errors (faults : FileFaults) (key : keyType) (val : valueType)
    (tree : Lsm) (fs : Disk) (b : List node)
    (hfull : tree.nextEmtpy = tree.blockSize) (hlen : tree.block.length = tree.blockSize)
    (hpos : 0 < tree.blockSize)
    (hsort : (if tree.sorted = true then MergeSort tree.block else pure tree.block)
      = .ok b) :
    (faults.openReadFails = false →
      (writeToDiskWith faults tree fs).map Prod.fst
        = .ok { tree with block := b, nextEmtpy := 0 } ∧
      (PutWith faults key val tree fs).map Prod.fst
        = .ok { tree with block := b.set 0 ⟨key, val⟩, nextEmtpy := 1 }) ∧
    (faults.openReadFails = true →
      writeToDiskWith faults tree fs = .error .fatal ∧
      PutWith faults key val tree fs = .error .fatal) := by
  have hblen : b.length = tree.block.length := by
    by_cases hs : tree.sorted = true
    · rw [if_pos hs] at hsort
      exact MergeSortAux_length _ _ b hsort
    · rw [if_neg hs] at hsort
      have : tree.block = b := by simpa [pure, Except.pure] using hsort
      rw [this]
  constructor
  · intro hr
    cases b with
    | nil =>
      simp only [List.length_nil] at hblen
      omega
    | cons b0 rest =>
      have hw := writeToDiskWith_returns faults tree fs b0 rest hsort
        (by simp only [List.length_cons] at hblen; omega) hr
      refine ⟨by rw [hw]; rfl, ?_⟩
      simp only [PutWith, if_pos hfull, hw, store, List.length_cons, Nat.zero_lt_succ,
        if_true, liftPanic, bind, Except.bind, pure, Except.pure, Except.map]
  · intro hr
    have hw := writeToDiskWith_fatal faults tree fs b hsort hr
    refine ⟨hw, ?_⟩
    simp only [PutWith, if_pos hfull, hw, bind, Except.bind]

/-- A witness for C18 as amended: capacity 1, full buffer `[(1,10)]`, the
file `[(5,50)]`, a write error after no record, and `Put(2,20)`: `Put`
returns with `(2,20)` in slot 0 and `nextEmtpy = 1`. -/
theorem flush_discards_write_errors_witness :
    Except.map Prod.fst
      (PutWith { openReadFails := false, written := some 0 } 2 20
        { blockSize := 1, k := 2, nodeSize := 16, nextEmtpy := 1,
          block := [⟨1, 10⟩], disk1 := "f", sorted := false } [⟨5, 50⟩])
    = .ok { blockSize := 1, k := 2, nodeSize := 16, nextEmtpy := 1,
            block := [⟨2, 20⟩], disk1 := "f", sorted := false } :=
  ((flush_discards_write_errors { openReadFails := false, written := some 0 } 2 20
      { blockSize := 1, k := 2, nodeSize := 16, nextEmtpy := 1,
        block := [⟨1, 10⟩], disk1 := "f", sorted := false } [⟨5, 50⟩] [⟨1, 10⟩]
      rfl rfl (by decide) rfl).1 rfl).2

end Lsmtree
